import Mathlib

deriving instance DecidableEq for Except

/-!
Shallow embedding of the tail tool (src/tail/src/lib.rs) for checking its
specification. Byte streams are modelled as lists of naturals (each below 256),
i64 values as integers together with explicit two's-complement wrapping where the
source arithmetic can overflow (release-mode Rust semantics: an overflowing
operation wraps; the same operations panic in a debug build, which the theorems
note where relevant). Strings are modelled as lists of characters.
-/

namespace Tail

/-- The `TakeValue` enum of the source: `PlusZero` is the `+0` sentinel,
`TakeNum v` holds a parsed signed 64-bit count. -/
inductive TakeValue where
  | PlusZero : TakeValue
  | TakeNum : Int → TakeValue
deriving DecidableEq, Repr

/-- Two's-complement wrap of an integer into the i64 range. -/
def wrap64 (x : Int) : Int :=
  (x + 2 ^ 63) % 2 ^ 64 - 2 ^ 63

/-- Reinterpretation of an i64 value as a u64 (the `as u64` cast). -/
def toU64 (x : Int) : Nat :=
  (x % 2 ^ 64).toNat

/-- Rust `i64::abs`: negation of a negative value, wrapping on overflow
(so the absolute value of the minimum i64 is the minimum i64 itself). -/
def i64abs (v : Int) : Int :=
  wrap64 (if v < 0 then -v else v)

/-- Rust `i64` multiplication with release-mode wrapping. -/
def i64mul (a b : Int) : Int :=
  wrap64 (a * b)

/-- `get_start_index` from the source: the window resolver. The match arms are
kept in source order; `(t - a) as u64` is an i64 subtraction (wrapping) followed
by a cast to u64. -/
def get_start_index (take_val : TakeValue) (total : Int) : Option Nat :=
  if total = 0 then none
  else
    match take_val with
    | TakeValue.PlusZero => some 0
    | TakeValue.TakeNum v =>
      if v < 0 then
        if i64abs v < total then some (toU64 (wrap64 (total - i64abs v))) else some 0
      else if 0 < v ∧ v ≤ total then some (toU64 (v - 1))
      else none

/-- An ASCII decimal digit. -/
def isDigitB (c : Char) : Bool :=
  decide ('0' ≤ c) && decide (c ≤ '9')

/-- Value of a list of ASCII digits read in base 10. -/
def digitsVal (l : List Char) : Nat :=
  l.foldl (fun a c => a * 10 + (c.toNat - 48)) 0

/-- The digit part of Rust integer parsing: one or more ASCII digits. -/
def parseDigits (l : List Char) : Option Nat :=
  if l ≠ [] ∧ l.all isDigitB then some (digitsVal l) else none

/-- Rust `str::parse::<i64>`: an optional single `+` or `-` sign followed by one
or more ASCII digits, whose value must fit the signed 64-bit range. -/
def parseI64 : List Char → Option Int
  | [] => none
  | '+' :: rest =>
    match parseDigits rest with
    | some n => if n ≤ 2 ^ 63 - 1 then some (n : Int) else none
    | none => none
  | '-' :: rest =>
    match parseDigits rest with
    | some n => if n ≤ 2 ^ 63 then some (-(n : Int)) else none
    | none => none
  | l =>
    match parseDigits l with
    | some n => if n ≤ 2 ^ 63 - 1 then some (n : Int) else none
    | none => none

/-- The regex `^\+0$` of the source as a predicate on the input characters. -/
def plusZeroMatch (s : List Char) : Bool :=
  decide (s = ['+', '0'])

/-- The regex `^(\+|\-)\d+$` of the source as a predicate on the input
characters. The regex class `\d` is modelled as an ASCII digit; strings whose
only digits are non-ASCII fail `str::parse::<i64>` in either branch with an
identical result, so the model is extensionally faithful. -/
def signNumMatch : List Char → Bool
  | [] => false
  | c :: rest => (c == '+' || c == '-') && !rest.isEmpty && rest.all isDigitB

/-- `parse_count` from the source. Branch order follows the source: the `+0`
regex, then the explicit-sign regex (parsed value kept), then the fallback
(parsed value multiplied by -1). A parse failure surfaces the original input
text as the error value. -/
def parse_count (s : List Char) : Except (List Char) TakeValue :=
  if plusZeroMatch s then Except.ok TakeValue.PlusZero
  else if signNumMatch s then
    match parseI64 s with
    | some n => Except.ok (TakeValue.TakeNum n)
    | none => Except.error s
  else
    match parseI64 s with
    | some n => Except.ok (TakeValue.TakeNum (i64mul n (-1)))
    | none => Except.error s

/-- A UTF-8 continuation byte. -/
def isCont (b : Nat) : Bool :=
  decide (128 ≤ b) && decide (b ≤ 191)

/-- Allowed second byte after a three-byte lead, per the Rust standard library
UTF-8 validation (rules out overlong encodings and surrogates). -/
def cont3ok (b b2 : Nat) : Bool :=
  if b = 224 then decide (160 ≤ b2) && decide (b2 ≤ 191)
  else if b = 237 then decide (128 ≤ b2) && decide (b2 ≤ 159)
  else isCont b2

/-- Allowed second byte after a four-byte lead, per the Rust standard library
UTF-8 validation (rules out overlong encodings and values above U+10FFFF). -/
def cont4ok (b b2 : Nat) : Bool :=
  if b = 240 then decide (144 ≤ b2) && decide (b2 ≤ 191)
  else if b = 244 then decide (128 ≤ b2) && decide (b2 ≤ 143)
  else isCont b2

/-- Strict UTF-8 validity of a byte stream, as checked by
`String::from_utf8` and `BufRead::read_line` in the source. -/
def utf8Valid : List Nat → Bool
  | [] => true
  | b :: rest =>
    if b ≤ 127 then utf8Valid rest
    else if 194 ≤ b ∧ b ≤ 223 then
      match rest with
      | b2 :: rest2 => isCont b2 && utf8Valid rest2
      | [] => false
    else if 224 ≤ b ∧ b ≤ 239 then
      match rest with
      | b2 :: rest2 =>
        cont3ok b b2 &&
          (match rest2 with
            | b3 :: rest3 => isCont b3 && utf8Valid rest3
            | [] => false)
      | [] => false
    else if 240 ≤ b ∧ b ≤ 244 then
      match rest with
      | b2 :: rest2 =>
        cont4ok b b2 &&
          (match rest2 with
            | b3 :: rest3 =>
              isCont b3 &&
                (match rest3 with
                  | b4 :: rest4 => isCont b4 && utf8Valid rest4
                  | [] => false)
            | [] => false)
      | [] => false
    else false

/-- `String::from_utf8_lossy` modelled as a decoder from bytes to a list of
code points: each well-formed sequence decodes to its scalar value, and each
maximal valid prefix of an ill-formed sequence is replaced by one U+FFFD
(65533), per the substitution-of-maximal-subparts policy of the Rust standard
library. -/
def utf8Lossy : List Nat → List Nat
  | [] => []
  | b :: rest =>
    if b ≤ 127 then b :: utf8Lossy rest
    else if 194 ≤ b ∧ b ≤ 223 then
      match rest with
      | b2 :: rest2 =>
        if isCont b2 then ((b - 192) * 64 + (b2 - 128)) :: utf8Lossy rest2
        else 65533 :: utf8Lossy (b2 :: rest2)
      | [] => [65533]
    else if 224 ≤ b ∧ b ≤ 239 then
      match rest with
      | b2 :: rest2 =>
        if cont3ok b b2 then
          match rest2 with
          | b3 :: rest3 =>
            if isCont b3 then
              ((b - 224) * 4096 + (b2 - 128) * 64 + (b3 - 128)) :: utf8Lossy rest3
            else 65533 :: utf8Lossy (b3 :: rest3)
          | [] => [65533]
        else 65533 :: utf8Lossy (b2 :: rest2)
      | [] => [65533]
    else if 240 ≤ b ∧ b ≤ 244 then
      match rest with
      | b2 :: rest2 =>
        if cont4ok b b2 then
          match rest2 with
          | b3 :: rest3 =>
            if isCont b3 then
              match rest3 with
              | b4 :: rest4 =>
                if isCont b4 then
                  ((b - 240) * 262144 + (b2 - 128) * 4096 + (b3 - 128) * 64 + (b4 - 128))
                    :: utf8Lossy rest4
                else 65533 :: utf8Lossy (b4 :: rest4)
              | [] => [65533]
            else 65533 :: utf8Lossy (b3 :: rest3)
          | [] => [65533]
        else 65533 :: utf8Lossy (b2 :: rest2)
      | [] => [65533]
    else 65533 :: utf8Lossy rest
termination_by l => l.length
decreasing_by all_goals (simp <;> omega)

/-- Standard UTF-8 encoding of one scalar value. -/
def utf8EncodeChar (c : Nat) : List Nat :=
  if c ≤ 127 then [c]
  else if c ≤ 2047 then [192 + c / 64, 128 + c % 64]
  else if c ≤ 65535 then [224 + c / 4096, 128 + c / 64 % 64, 128 + c % 64]
  else [240 + c / 262144, 128 + c / 4096 % 64, 128 + c / 64 % 64, 128 + c % 64]

/-- Byte stream written when a list of code points is printed. -/
def utf8Encode (cs : List Nat) : List Nat :=
  (cs.map utf8EncodeChar).flatten

/-- One `read_until`-style step: the bytes of the first line, terminator
included when present, and the remaining bytes. -/
def read_line_split : List Nat → List Nat × List Nat
  | [] => ([], [])
  | b :: bs =>
    if b = 10 then ([10], bs)
    else (b :: (read_line_split bs).1, (read_line_split bs).2)

/-- Splitting a byte stream into its lines, terminators included, with fuel
bounded by the length of the stream (each step consumes at least one byte). -/
def splitLinesFuel : Nat → List Nat → List (List Nat)
  | _, [] => []
  | 0, _ :: _ => []
  | fuel + 1, b :: bs =>
    (read_line_split (b :: bs)).1 :: splitLinesFuel fuel (read_line_split (b :: bs)).2

/-- The lines of a byte stream, terminators included. -/
def splitLines (bs : List Nat) : List (List Nat) :=
  splitLinesFuel bs.length bs

/-- `BufRead::lines().count()` as used by `count_lines_bytes`: the number of
line chunks. An undecodable chunk is produced as an error item but is still
counted, so the count is independent of text validity. -/
def countLines (bs : List Nat) : Nat :=
  (splitLines bs).length

/-- `count_lines_bytes` from the source, over the content of an already
readable resource: the line count and the byte count, both as i64. -/
def count_lines_bytes (bs : List Nat) : Int × Int :=
  ((countLines bs : Int), (bs.length : Int))

/-- The failure modes a strategy can hit in the model: `invalidData` is the
`InvalidData` error of `BufRead::read_line` on an undecodable line, `fromUtf8`
the error of `String::from_utf8` on an undecodable remainder. -/
inductive IoErr where
  | invalidData : IoErr
  | fromUtf8 : IoErr
deriving DecidableEq, Repr

/-- The skip loop of `print_lines`: `read_line` is called `s` times, each call
taking one line (terminator included) and failing if that line is not valid
UTF-8; at end of input it reads nothing and succeeds. -/
def skipLines : Nat → List Nat → Except IoErr (List Nat)
  | 0, bs => Except.ok bs
  | n + 1, bs =>
    if utf8Valid (read_line_split bs).1 then skipLines n (read_line_split bs).2
    else Except.error IoErr.invalidData

/-- The bytes remaining after `s` line-reads, ignoring decodability. -/
def dropLines : Nat → List Nat → List Nat
  | 0, bs => bs
  | n + 1, bs => dropLines n (read_line_split bs).2

/-- `print_lines` from the source, returning the bytes written to standard
output: resolve the start index, skip that many lines with `read_line`, read
the rest, and print it after a strict `String::from_utf8` conversion. -/
def print_lines (bs : List Nat) (num_lines : TakeValue) (total_lines : Int) :
    Except IoErr (List Nat) :=
  match get_start_index num_lines total_lines with
  | none => Except.ok []
  | some s =>
    match skipLines s bs with
    | Except.error e => Except.error e
    | Except.ok rest =>
      if utf8Valid rest then Except.ok rest else Except.error IoErr.fromUtf8

/-- `print_bytes` from the source, returning the bytes written to standard
output: resolve the start index, seek to it (a seek past the end reads back
nothing), read the rest, and print it through `String::from_utf8_lossy`. It
has no failure mode. -/
def print_bytes (bs : List Nat) (num_bytes : TakeValue) (total_bytes : Int) :
    List Nat :=
  match get_start_index num_bytes total_bytes with
  | none => []
  | some s =>
    if (bs.drop s).isEmpty then []
    else utf8Encode (utf8Lossy (bs.drop s))

/-- The `Config` struct of the source. -/
structure Config where
  files : List String
  lines : TakeValue
  bytes : Option TakeValue
  quiet : Bool

/-- Observable actions of `run`: a per-file error line on standard error, a
header banner (with a record of whether it is the first one, which controls the
leading blank line), and a block of output bytes. -/
inductive Event where
  | stderr : String → Event
  | header : String → Bool → Event
  | output : List Nat → Event
deriving DecidableEq, Repr

/-- The per-file loop of `run` over a static file system `fs` mapping names to
contents (`none` means the open fails). A failed open prints to standard error
and continues with the next file; after a successful open, the `?` operator in
the source propagates any strategy error, ending the whole loop. `i` is the
enumeration index. -/
def runAux (fs : String → Option (List Nat)) (cfg : Config) :
    Nat → List String → List Event × Option IoErr
  | _, [] => ([], none)
  | i, f :: rest =>
    match fs f with
    | none =>
      ((Event.stderr f) :: (runAux fs cfg (i + 1) rest).1,
        (runAux fs cfg (i + 1) rest).2)
    | some bs =>
      let hdr : List Event :=
        if !cfg.quiet && cfg.files.length > 1 then [Event.header f (i == 0)] else []
      let counts := count_lines_bytes bs
      let res : Except IoErr (List Nat) :=
        match cfg.bytes with
        | some b => Except.ok (print_bytes bs b counts.2)
        | none => print_lines bs cfg.lines counts.1
      match res with
      | Except.error e => (hdr, some e)
      | Except.ok out =>
        (hdr ++ Event.output out :: (runAux fs cfg (i + 1) rest).1,
          (runAux fs cfg (i + 1) rest).2)

/-- `run` from the source, over a static file system. -/
def run (fs : String → Option (List Nat)) (cfg : Config) :
    List Event × Option IoErr :=
  runAux fs cfg 0 cfg.files

/-- The rule table of spec section 4.2, written from the words of the spec:
an empty resource yields no output; the `+0` sentinel starts at 0; a negative
count starts `magnitude` units before the end, clamped to the whole resource;
a positive count `v ≤ total` starts at the 0-based index `v - 1`; a positive
count past the end, or zero, yields no output. -/
def resolveWindowSpec (offset : TakeValue) (total : Int) : Option Int :=
  if total = 0 then none
  else
    match offset with
    | TakeValue.PlusZero => some 0
    | TakeValue.TakeNum v =>
      if v < 0 then
        if -v < total then some (total + v) else some 0
      else if 0 < v then
        if v ≤ total then some (v - 1) else none
      else none

/-- A `TakeValue` whose count has a representable magnitude: every i64 except
the minimum. -/
def okTake : TakeValue → Prop
  | TakeValue.PlusZero => True
  | TakeValue.TakeNum v => -(2 ^ 63) < v ∧ v < 2 ^ 63

instance : DecidablePred okTake := by
  intro tv
  cases tv <;> simp [okTake] <;> infer_instance

theorem wrap64_eq_self {x : Int} (h1 : -(2 ^ 63) ≤ x) (h2 : x < 2 ^ 63) :
    wrap64 x = x := by
  unfold wrap64
  omega

theorem toU64_eq_toNat {x : Int} (h1 : 0 ≤ x) (h2 : x < 2 ^ 64) :
    toU64 x = x.toNat := by
  unfold toU64
  omega

/-- On every count with representable magnitude and every in-range total, the
source resolver agrees with the rule table of the spec. -/
theorem get_start_index_spec (tv : TakeValue) (total : Int) (hok : okTake tv)
    (h1 : -(2 ^ 63) ≤ total) (h2 : total < 2 ^ 63) :
    get_start_index tv total = (resolveWindowSpec tv total).map Int.toNat := by
  cases tv with
  | PlusZero =>
    by_cases h0 : total = 0 <;> simp [get_start_index, resolveWindowSpec, h0]
  | TakeNum v =>
    obtain ⟨hv1, hv2⟩ := hok
    by_cases h0 : total = 0
    · simp [get_start_index, resolveWindowSpec, h0]
    · by_cases hneg : v < 0
      · have habs : i64abs v = -v := by
          unfold i64abs
          rw [if_pos hneg, wrap64_eq_self (by omega) (by omega)]
        by_cases hlt : -v < total
        · have hw : wrap64 (total - -v) = total + v := by
            rw [show total - -v = total + v by ring]
            exact wrap64_eq_self (by omega) (by omega)
          simp only [get_start_index, resolveWindowSpec, if_neg h0, if_pos hneg,
            habs, if_pos hlt, hw]
          rw [toU64_eq_toNat (by omega) (by omega)]
          simp
        · simp [get_start_index, resolveWindowSpec, h0, hneg, habs, hlt]
      · by_cases hpos : 0 < v
        · by_cases hle : v ≤ total
          · simp only [get_start_index, resolveWindowSpec, if_neg h0, if_neg hneg,
              if_pos hpos, if_pos hle, if_pos (And.intro hpos hle)]
            rw [toU64_eq_toNat (by omega) (by omega)]
            simp
          · have : ¬(0 < v ∧ v ≤ total) := by omega
            simp [get_start_index, resolveWindowSpec, h0, hneg, hpos, hle, this]
        · have hz : v = 0 := by omega
          simp [get_start_index, resolveWindowSpec, h0, hz]


theorem utf8Encode_nil : utf8Encode [] = [] := rfl

theorem utf8Encode_cons (c : Nat) (cs : List Nat) :
    utf8Encode (c :: cs) = utf8EncodeChar c ++ utf8Encode cs := by
  simp [utf8Encode]

theorem isCont_range {b : Nat} (h : isCont b = true) : 128 ≤ b ∧ b ≤ 191 := by
  simp [isCont] at h
  exact h

theorem cont3ok_ranges {b b2 : Nat} (h : cont3ok b b2 = true) :
    (b = 224 ∧ 160 ≤ b2 ∧ b2 ≤ 191) ∨ (b = 237 ∧ 128 ≤ b2 ∧ b2 ≤ 159) ∨
      (b ≠ 224 ∧ b ≠ 237 ∧ 128 ≤ b2 ∧ b2 ≤ 191) := by
  unfold cont3ok at h
  split at h
  · simp_all
  · split at h
    · simp_all
    · simp_all [isCont]

theorem cont4ok_ranges {b b2 : Nat} (h : cont4ok b b2 = true) :
    (b = 240 ∧ 144 ≤ b2 ∧ b2 ≤ 191) ∨ (b = 244 ∧ 128 ≤ b2 ∧ b2 ≤ 143) ∨
      (b ≠ 240 ∧ b ≠ 244 ∧ 128 ≤ b2 ∧ b2 ≤ 191) := by
  unfold cont4ok at h
  split at h
  · simp_all
  · split at h
    · simp_all
    · simp_all [isCont]

theorem encodeChar1 {b : Nat} (h : b ≤ 127) : utf8EncodeChar b = [b] := by
  unfold utf8EncodeChar
  rw [if_pos h]

theorem encodeChar2 {b b2 : Nat} (h1 : 194 ≤ b) (h2 : b ≤ 223)
    (h3 : 128 ≤ b2) (h4 : b2 ≤ 191) :
    utf8EncodeChar ((b - 192) * 64 + (b2 - 128)) = [b, b2] := by
  unfold utf8EncodeChar
  rw [if_neg (by omega), if_pos (by omega)]
  simp only [List.cons.injEq, and_true]
  omega

theorem encodeChar3 {b b2 b3 : Nat} (h1 : 224 ≤ b) (h2 : b ≤ 239)
    (hc : cont3ok b b2 = true) (h3 : 128 ≤ b3) (h4 : b3 ≤ 191) :
    utf8EncodeChar ((b - 224) * 4096 + (b2 - 128) * 64 + (b3 - 128)) = [b, b2, b3] := by
  have hr := cont3ok_ranges hc
  unfold utf8EncodeChar
  rw [if_neg (by omega), if_neg (by omega), if_pos (by omega)]
  simp only [List.cons.injEq, and_true]
  omega

theorem encodeChar4 {b b2 b3 b4 : Nat} (h1 : 240 ≤ b) (h2 : b ≤ 244)
    (hc : cont4ok b b2 = true) (h3 : 128 ≤ b3) (h4 : b3 ≤ 191)
    (h5 : 128 ≤ b4) (h6 : b4 ≤ 191) :
    utf8EncodeChar ((b - 240) * 262144 + (b2 - 128) * 4096 + (b3 - 128) * 64 + (b4 - 128)) =
      [b, b2, b3, b4] := by
  have hr := cont4ok_ranges hc
  unfold utf8EncodeChar
  rw [if_neg (by omega), if_neg (by omega), if_neg (by omega)]
  simp only [List.cons.injEq, and_true]
  omega

theorem utf8Valid_nil : utf8Valid [] = true := by
  rw [utf8Valid.eq_def]

theorem utf8Valid_ascii {b : Nat} (rest : List Nat) (hb : b ≤ 127) :
    utf8Valid (b :: rest) = utf8Valid rest := by
  rw [utf8Valid.eq_def]
  simp only [if_pos hb]

theorem utf8Valid_two {b b2 : Nat} (rest2 : List Nat) (hb : ¬b ≤ 127)
    (hr : 194 ≤ b ∧ b ≤ 223) :
    utf8Valid (b :: b2 :: rest2) = (isCont b2 && utf8Valid rest2) := by
  rw [utf8Valid.eq_def]
  simp only [if_neg hb, if_pos hr]

theorem utf8Valid_two_short {b : Nat} (hb : ¬b ≤ 127) (hr : 194 ≤ b ∧ b ≤ 223) :
    utf8Valid [b] = false := by
  rw [utf8Valid.eq_def]
  simp only [if_neg hb, if_pos hr]

theorem utf8Valid_three {b b2 b3 : Nat} (rest3 : List Nat) (hb : ¬b ≤ 127)
    (hr2 : ¬(194 ≤ b ∧ b ≤ 223)) (hr : 224 ≤ b ∧ b ≤ 239) :
    utf8Valid (b :: b2 :: b3 :: rest3) =
      (cont3ok b b2 && (isCont b3 && utf8Valid rest3)) := by
  rw [utf8Valid.eq_def]
  simp only [if_neg hb, if_neg hr2, if_pos hr]

theorem utf8Valid_three_short2 {b b2 : Nat} (hb : ¬b ≤ 127)
    (hr2 : ¬(194 ≤ b ∧ b ≤ 223)) (hr : 224 ≤ b ∧ b ≤ 239) :
    utf8Valid [b, b2] = false := by
  rw [utf8Valid.eq_def]
  simp only [if_neg hb, if_neg hr2, if_pos hr, Bool.and_false]

theorem utf8Valid_three_short1 {b : Nat} (hb : ¬b ≤ 127)
    (hr2 : ¬(194 ≤ b ∧ b ≤ 223)) (hr : 224 ≤ b ∧ b ≤ 239) :
    utf8Valid [b] = false := by
  rw [utf8Valid.eq_def]
  simp only [if_neg hb, if_neg hr2, if_pos hr]

theorem utf8Valid_four {b b2 b3 b4 : Nat} (rest4 : List Nat) (hb : ¬b ≤ 127)
    (hr2 : ¬(194 ≤ b ∧ b ≤ 223)) (hr3 : ¬(224 ≤ b ∧ b ≤ 239))
    (hr : 240 ≤ b ∧ b ≤ 244) :
    utf8Valid (b :: b2 :: b3 :: b4 :: rest4) =
      (cont4ok b b2 && (isCont b3 && (isCont b4 && utf8Valid rest4))) := by
  rw [utf8Valid.eq_def]
  simp only [if_neg hb, if_neg hr2, if_neg hr3, if_pos hr]

theorem utf8Valid_four_short3 {b b2 b3 : Nat} (hb : ¬b ≤ 127)
    (hr2 : ¬(194 ≤ b ∧ b ≤ 223)) (hr3 : ¬(224 ≤ b ∧ b ≤ 239))
    (hr : 240 ≤ b ∧ b ≤ 244) :
    utf8Valid [b, b2, b3] = false := by
  rw [utf8Valid.eq_def]
  simp only [if_neg hb, if_neg hr2, if_neg hr3, if_pos hr, Bool.and_false]

theorem utf8Valid_four_short2 {b b2 : Nat} (hb : ¬b ≤ 127)
    (hr2 : ¬(194 ≤ b ∧ b ≤ 223)) (hr3 : ¬(224 ≤ b ∧ b ≤ 239))
    (hr : 240 ≤ b ∧ b ≤ 244) :
    utf8Valid [b, b2] = false := by
  rw [utf8Valid.eq_def]
  simp only [if_neg hb, if_neg hr2, if_neg hr3, if_pos hr, Bool.and_false]

theorem utf8Valid_four_short1 {b : Nat} (hb : ¬b ≤ 127)
    (hr2 : ¬(194 ≤ b ∧ b ≤ 223)) (hr3 : ¬(224 ≤ b ∧ b ≤ 239))
    (hr : 240 ≤ b ∧ b ≤ 244) :
    utf8Valid [b] = false := by
  rw [utf8Valid.eq_def]
  simp only [if_neg hb, if_neg hr2, if_neg hr3, if_pos hr]

theorem utf8Valid_bad {b : Nat} (rest : List Nat) (hb : ¬b ≤ 127)
    (hr2 : ¬(194 ≤ b ∧ b ≤ 223)) (hr3 : ¬(224 ≤ b ∧ b ≤ 239))
    (hr4 : ¬(240 ≤ b ∧ b ≤ 244)) :
    utf8Valid (b :: rest) = false := by
  rw [utf8Valid.eq_def]
  simp only [if_neg hb, if_neg hr2, if_neg hr3, if_neg hr4]

theorem utf8Lossy_nil : utf8Lossy [] = [] := by
  rw [utf8Lossy.eq_def]

theorem utf8Lossy_ascii {b : Nat} (rest : List Nat) (hb : b ≤ 127) :
    utf8Lossy (b :: rest) = b :: utf8Lossy rest := by
  rw [utf8Lossy.eq_def]
  simp only [if_pos hb]

theorem utf8Lossy_two {b b2 : Nat} (rest2 : List Nat) (hb : ¬b ≤ 127)
    (hr : 194 ≤ b ∧ b ≤ 223) (hc : isCont b2 = true) :
    utf8Lossy (b :: b2 :: rest2) = ((b - 192) * 64 + (b2 - 128)) :: utf8Lossy rest2 := by
  rw [utf8Lossy.eq_def]
  simp only [if_neg hb, if_pos hr, hc, if_true]

theorem utf8Lossy_three {b b2 b3 : Nat} (rest3 : List Nat) (hb : ¬b ≤ 127)
    (hr2 : ¬(194 ≤ b ∧ b ≤ 223)) (hr : 224 ≤ b ∧ b ≤ 239)
    (hc : cont3ok b b2 = true) (hc3 : isCont b3 = true) :
    utf8Lossy (b :: b2 :: b3 :: rest3) =
      ((b - 224) * 4096 + (b2 - 128) * 64 + (b3 - 128)) :: utf8Lossy rest3 := by
  rw [utf8Lossy.eq_def]
  simp only [if_neg hb, if_neg hr2, if_pos hr, hc, hc3, if_true]

theorem utf8Lossy_four {b b2 b3 b4 : Nat} (rest4 : List Nat) (hb : ¬b ≤ 127)
    (hr2 : ¬(194 ≤ b ∧ b ≤ 223)) (hr3 : ¬(224 ≤ b ∧ b ≤ 239))
    (hr : 240 ≤ b ∧ b ≤ 244) (hc : cont4ok b b2 = true)
    (hc3 : isCont b3 = true) (hc4 : isCont b4 = true) :
    utf8Lossy (b :: b2 :: b3 :: b4 :: rest4) =
      ((b - 240) * 262144 + (b2 - 128) * 4096 + (b3 - 128) * 64 + (b4 - 128))
        :: utf8Lossy rest4 := by
  rw [utf8Lossy.eq_def]
  simp only [if_neg hb, if_neg hr2, if_neg hr3, if_pos hr, hc, hc3, hc4, if_true]

/-- A valid UTF-8 byte stream survives the lossy decode and re-encode
unchanged: this is the verbatim-emission core of the byte strategy. -/
theorem utf8_roundtrip (l : List Nat) :
    utf8Valid l = true → utf8Encode (utf8Lossy l) = l := by
  induction l using utf8Lossy.induct with
  | case1 =>
    intro h
    rw [utf8Lossy_nil, utf8Encode_nil]
  | case2 b rest hb ih =>
    intro h
    rw [utf8Valid_ascii rest hb] at h
    rw [utf8Lossy_ascii rest hb, utf8Encode_cons, ih h, encodeChar1 hb]
    rfl
  | case3 b hb hr b2 rest2 hc ih =>
    intro h
    rw [utf8Valid_two rest2 hb hr, hc, Bool.true_and] at h
    obtain ⟨hc1, hc2⟩ := isCont_range hc
    rw [utf8Lossy_two rest2 hb hr hc, utf8Encode_cons, ih h, encodeChar2 hr.1 hr.2 hc1 hc2]
    rfl
  | case4 b hb hr b2 rest2 hc ih =>
    intro h
    rw [utf8Valid_two rest2 hb hr] at h
    simp [hc] at h
  | case5 b hb hr =>
    intro h
    rw [utf8Valid_two_short hb hr] at h
    exact absurd h (by simp)
  | case6 b hb hr2 hr b2 hc b3 rest3 hc3 ih =>
    intro h
    rw [utf8Valid_three rest3 hb hr2 hr, hc, hc3, Bool.true_and, Bool.true_and] at h
    obtain ⟨h31, h32⟩ := isCont_range hc3
    rw [utf8Lossy_three rest3 hb hr2 hr hc hc3, utf8Encode_cons, ih h,
      encodeChar3 hr.1 hr.2 hc h31 h32]
    rfl
  | case7 b hb hr2 hr b2 hc b3 rest3 hc3 ih =>
    intro h
    rw [utf8Valid_three rest3 hb hr2 hr] at h
    simp [hc3] at h
  | case8 b hb hr2 hr b2 hc =>
    intro h
    rw [utf8Valid_three_short2 hb hr2 hr] at h
    exact absurd h (by simp)
  | case9 b hb hr2 hr b2 rest2 hc ih =>
    intro h
    cases rest2 with
    | nil =>
      rw [utf8Valid_three_short2 hb hr2 hr] at h
      exact absurd h (by simp)
    | cons b3 rest3 =>
      rw [utf8Valid_three rest3 hb hr2 hr] at h
      simp [hc] at h
  | case10 b hb hr2 hr =>
    intro h
    rw [utf8Valid_three_short1 hb hr2 hr] at h
    exact absurd h (by simp)
  | case11 b hb hr2 hr3 hr b2 hc b3 hc3 b4 rest4 hc4 ih =>
    intro h
    rw [utf8Valid_four rest4 hb hr2 hr3 hr, hc, hc3, hc4, Bool.true_and, Bool.true_and,
      Bool.true_and] at h
    obtain ⟨h31, h32⟩ := isCont_range hc3
    obtain ⟨h41, h42⟩ := isCont_range hc4
    rw [utf8Lossy_four rest4 hb hr2 hr3 hr hc hc3 hc4, utf8Encode_cons, ih h,
      encodeChar4 hr.1 hr.2 hc h31 h32 h41 h42]
    rfl
  | case12 b hb hr2 hr3 hr b2 hc b3 hc3 b4 rest4 hc4 ih =>
    intro h
    rw [utf8Valid_four rest4 hb hr2 hr3 hr] at h
    simp [hc4] at h
  | case13 b hb hr2 hr3 hr b2 hc b3 hc3 =>
    intro h
    rw [utf8Valid_four_short3 hb hr2 hr3 hr] at h
    exact absurd h (by simp)
  | case14 b hb hr2 hr3 hr b2 hc b3 rest2 hc3 ih =>
    intro h
    cases rest2 with
    | nil =>
      rw [utf8Valid_four_short3 hb hr2 hr3 hr] at h
      exact absurd h (by simp)
    | cons b4 rest4 =>
      rw [utf8Valid_four rest4 hb hr2 hr3 hr] at h
      simp [hc3] at h
  | case15 b hb hr2 hr3 hr b2 hc =>
    intro h
    rw [utf8Valid_four_short2 hb hr2 hr3 hr] at h
    exact absurd h (by simp)
  | case16 b hb hr2 hr3 hr b2 rest2 hc ih =>
    intro h
    cases rest2 with
    | nil =>
      rw [utf8Valid_four_short2 hb hr2 hr3 hr] at h
      exact absurd h (by simp)
    | cons b3 rest3 =>
      cases rest3 with
      | nil =>
        rw [utf8Valid_four_short3 hb hr2 hr3 hr] at h
        exact absurd h (by simp)
      | cons b4 rest4 =>
        rw [utf8Valid_four rest4 hb hr2 hr3 hr] at h
        simp [hc] at h
  | case17 b hb hr2 hr3 hr =>
    intro h
    rw [utf8Valid_four_short1 hb hr2 hr3 hr] at h
    exact absurd h (by simp)
  | case18 b rest hb hr2 hr3 hr4 ih =>
    intro h
    rw [utf8Valid_bad rest hb hr2 hr3 hr4] at h
    exact absurd h (by simp)

theorem rls_nil : read_line_split [] = ([], []) := rfl

theorem rls_newline (bs : List Nat) : read_line_split (10 :: bs) = ([10], bs) := by
  simp [read_line_split]

theorem rls_other {b : Nat} (bs : List Nat) (h : ¬b = 10) :
    read_line_split (b :: bs) =
      (b :: (read_line_split bs).1, (read_line_split bs).2) := by
  simp [read_line_split, h]

theorem rls_append (bs : List Nat) :
    (read_line_split bs).1 ++ (read_line_split bs).2 = bs := by
  induction bs with
  | nil => rfl
  | cons b rest ih =>
    by_cases h : b = 10
    · subst h
      rw [rls_newline]
      rfl
    · rw [rls_other rest h]
      simpa using ih

theorem rls_snd_length (bs : List Nat) :
    (read_line_split bs).2.length ≤ bs.length := by
  induction bs with
  | nil => simp [rls_nil]
  | cons b rest ih =>
    by_cases h : b = 10
    · subst h
      simp [rls_newline]
    · rw [rls_other rest h]
      simpa using Nat.le_succ_of_le ih

/-- Splitting a valid UTF-8 stream at its first line terminator leaves two
valid UTF-8 streams: a terminator is ASCII and no multibyte sequence contains
one, so the cut always falls on a sequence boundary. -/
theorem rls_valid (bs : List Nat) (h : utf8Valid bs = true) :
    utf8Valid (read_line_split bs).1 = true ∧
      utf8Valid (read_line_split bs).2 = true := by
  induction bs using utf8Lossy.induct with
  | case1 => exact ⟨rfl, rfl⟩
  | case2 b rest hb ih =>
    rw [utf8Valid_ascii rest hb] at h
    by_cases h10 : b = 10
    · subst h10
      rw [rls_newline]
      exact ⟨rfl, h⟩
    · rw [rls_other rest h10]
      obtain ⟨ih1, ih2⟩ := ih h
      exact ⟨by rw [utf8Valid_ascii _ hb]; exact ih1, ih2⟩
  | case3 b hb hr b2 rest2 hc ih =>
    rw [utf8Valid_two rest2 hb hr, hc, Bool.true_and] at h
    obtain ⟨hc1, hc2⟩ := isCont_range hc
    obtain ⟨ih1, ih2⟩ := ih h
    rw [rls_other _ (by omega), rls_other _ (by omega)]
    refine ⟨?_, ih2⟩
    rw [utf8Valid_two _ hb hr, hc, Bool.true_and]
    exact ih1
  | case4 b hb hr b2 rest2 hc ih =>
    rw [utf8Valid_two rest2 hb hr] at h
    simp [hc] at h
  | case5 b hb hr =>
    rw [utf8Valid_two_short hb hr] at h
    exact absurd h (by simp)
  | case6 b hb hr2 hr b2 hc b3 rest3 hc3 ih =>
    rw [utf8Valid_three rest3 hb hr2 hr, hc, hc3, Bool.true_and, Bool.true_and] at h
    have hb2 := cont3ok_ranges hc
    obtain ⟨h31, h32⟩ := isCont_range hc3
    obtain ⟨ih1, ih2⟩ := ih h
    rw [rls_other _ (by omega), rls_other _ (by omega), rls_other _ (by omega)]
    refine ⟨?_, ih2⟩
    rw [utf8Valid_three _ hb hr2 hr, hc, hc3, Bool.true_and, Bool.true_and]
    exact ih1
  | case7 b hb hr2 hr b2 hc b3 rest3 hc3 ih =>
    rw [utf8Valid_three rest3 hb hr2 hr] at h
    simp [hc3] at h
  | case8 b hb hr2 hr b2 hc =>
    rw [utf8Valid_three_short2 hb hr2 hr] at h
    exact absurd h (by simp)
  | case9 b hb hr2 hr b2 rest2 hc ih =>
    cases rest2 with
    | nil =>
      rw [utf8Valid_three_short2 hb hr2 hr] at h
      exact absurd h (by simp)
    | cons b3 rest3 =>
      rw [utf8Valid_three rest3 hb hr2 hr] at h
      simp [hc] at h
  | case10 b hb hr2 hr =>
    rw [utf8Valid_three_short1 hb hr2 hr] at h
    exact absurd h (by simp)
  | case11 b hb hr2 hr3 hr b2 hc b3 hc3 b4 rest4 hc4 ih =>
    rw [utf8Valid_four rest4 hb hr2 hr3 hr, hc, hc3, hc4, Bool.true_and, Bool.true_and,
      Bool.true_and] at h
    have hb2 := cont4ok_ranges hc
    obtain ⟨h31, h32⟩ := isCont_range hc3
    obtain ⟨h41, h42⟩ := isCont_range hc4
    obtain ⟨ih1, ih2⟩ := ih h
    rw [rls_other _ (by omega), rls_other _ (by omega), rls_other _ (by omega),
      rls_other _ (by omega)]
    refine ⟨?_, ih2⟩
    rw [utf8Valid_four _ hb hr2 hr3 hr, hc, hc3, hc4, Bool.true_and, Bool.true_and,
      Bool.true_and]
    exact ih1
  | case12 b hb hr2 hr3 hr b2 hc b3 hc3 b4 rest4 hc4 ih =>
    rw [utf8Valid_four rest4 hb hr2 hr3 hr] at h
    simp [hc4] at h
  | case13 b hb hr2 hr3 hr b2 hc b3 hc3 =>
    rw [utf8Valid_four_short3 hb hr2 hr3 hr] at h
    exact absurd h (by simp)
  | case14 b hb hr2 hr3 hr b2 hc b3 rest2 hc3 ih =>
    cases rest2 with
    | nil =>
      rw [utf8Valid_four_short3 hb hr2 hr3 hr] at h
      exact absurd h (by simp)
    | cons b4 rest4 =>
      rw [utf8Valid_four rest4 hb hr2 hr3 hr] at h
      simp [hc3] at h
  | case15 b hb hr2 hr3 hr b2 hc =>
    rw [utf8Valid_four_short2 hb hr2 hr3 hr] at h
    exact absurd h (by simp)
  | case16 b hb hr2 hr3 hr b2 rest2 hc ih =>
    cases rest2 with
    | nil =>
      rw [utf8Valid_four_short2 hb hr2 hr3 hr] at h
      exact absurd h (by simp)
    | cons b3 rest3 =>
      cases rest3 with
      | nil =>
        rw [utf8Valid_four_short3 hb hr2 hr3 hr] at h
        exact absurd h (by simp)
      | cons b4 rest4 =>
        rw [utf8Valid_four rest4 hb hr2 hr3 hr] at h
        simp [hc] at h
  | case17 b hb hr2 hr3 hr =>
    rw [utf8Valid_four_short1 hb hr2 hr3 hr] at h
    exact absurd h (by simp)
  | case18 b rest hb hr2 hr3 hr4 ih =>
    rw [utf8Valid_bad rest hb hr2 hr3 hr4] at h
    exact absurd h (by simp)


theorem dropLines_nil (s : Nat) : dropLines s [] = [] := by
  induction s with
  | zero => rfl
  | succ n ih => simpa [dropLines, rls_nil] using ih

theorem splitLinesFuel_drop_flatten (fuel : Nat) :
    ∀ (s : Nat) (bs : List Nat), bs.length ≤ fuel →
      ((splitLinesFuel fuel bs).drop s).flatten = dropLines s bs := by
  induction fuel with
  | zero =>
    intro s bs hlen
    have hb : bs = [] := by
      cases bs with
      | nil => rfl
      | cons b rest => simp at hlen
    subst hb
    simp [splitLinesFuel, dropLines_nil]
  | succ fuel ih =>
    intro s bs hlen
    cases bs with
    | nil => simp [splitLinesFuel, dropLines_nil]
    | cons b rest =>
      have hstep : splitLinesFuel (fuel + 1) (b :: rest) =
          (read_line_split (b :: rest)).1 ::
            splitLinesFuel fuel (read_line_split (b :: rest)).2 := by
        simp [splitLinesFuel]
      have hlen2 : (read_line_split (b :: rest)).2.length ≤ fuel := by
        have h1 := rls_snd_length (b :: rest)
        by_cases h10 : b = 10
        · subst h10
          simp only [rls_newline]
          simpa using hlen
        · have heq : (read_line_split (b :: rest)).2 = (read_line_split rest).2 := by
            rw [rls_other rest h10]
          rw [heq]
          have := rls_snd_length rest
          simp only [List.length_cons] at hlen
          omega
      cases s with
      | zero =>
        rw [hstep]
        simp only [List.drop_zero, List.flatten_cons]
        have h0 := ih 0 (read_line_split (b :: rest)).2 hlen2
        simp only [List.drop_zero] at h0
        rw [h0]
        simp only [dropLines]
        exact rls_append (b :: rest)
      | succ s =>
        rw [hstep]
        simp only [List.drop_succ_cons]
        rw [ih s (read_line_split (b :: rest)).2 hlen2]
        rfl

theorem splitLines_drop_flatten (s : Nat) (bs : List Nat) :
    ((splitLines bs).drop s).flatten = dropLines s bs :=
  splitLinesFuel_drop_flatten bs.length s bs (le_refl _)

theorem skipLines_ok_of_valid (s : Nat) :
    ∀ bs : List Nat, utf8Valid bs = true →
      skipLines s bs = Except.ok (dropLines s bs) ∧
        utf8Valid (dropLines s bs) = true := by
  induction s with
  | zero => exact fun bs h => ⟨rfl, h⟩
  | succ n ih =>
    intro bs h
    obtain ⟨h1, h2⟩ := rls_valid bs h
    obtain ⟨ih1, ih2⟩ := ih (read_line_split bs).2 h2
    refine ⟨?_, ih2⟩
    simp only [skipLines, h1, if_true]
    exact ih1

theorem skipLines_ok_eq (s : Nat) :
    ∀ bs r : List Nat, skipLines s bs = Except.ok r → r = dropLines s bs := by
  induction s with
  | zero =>
    intro bs r h
    simpa [skipLines, dropLines] using h.symm
  | succ n ih =>
    intro bs r h
    simp only [skipLines] at h
    by_cases hv : utf8Valid (read_line_split bs).1 = true
    · rw [if_pos hv] at h
      exact ih _ _ h
    · rw [if_neg hv] at h
      exact absurd h (by simp)


theorem print_lines_some (bs : List Nat) (tv : TakeValue) (total : Int) (s : Nat)
    (hs : get_start_index tv total = some s) :
    print_lines bs tv total =
      match skipLines s bs with
      | Except.error e => Except.error e
      | Except.ok rest =>
        if utf8Valid rest then Except.ok rest else Except.error IoErr.fromUtf8 := by
  unfold print_lines
  rw [hs]

theorem print_lines_valid_content (bs : List Nat) (tv : TakeValue) (total : Int)
    (s : Nat) (hv : utf8Valid bs = true) (hs : get_start_index tv total = some s) :
    print_lines bs tv total = Except.ok (((splitLines bs).drop s).flatten) := by
  obtain ⟨hsk, hrest⟩ := skipLines_ok_of_valid s bs hv
  rw [print_lines_some bs tv total s hs, hsk]
  dsimp only
  rw [if_pos hrest, splitLines_drop_flatten]

theorem print_lines_error_content (bs : List Nat) (tv : TakeValue) (total : Int)
    (s : Nat) (hs : get_start_index tv total = some s)
    (hv : utf8Valid (dropLines s bs) = false) :
    ∃ e, print_lines bs tv total = Except.error e := by
  rw [print_lines_some bs tv total s hs]
  cases hsk : skipLines s bs with
  | error e => exact ⟨e, rfl⟩
  | ok rest =>
    have hr := skipLines_ok_eq s bs rest hsk
    subst hr
    dsimp only
    rw [if_neg (by rw [hv]; simp)]
    exact ⟨IoErr.fromUtf8, rfl⟩

theorem print_bytes_some (bs : List Nat) (tv : TakeValue) (total : Int) (s : Nat)
    (hs : get_start_index tv total = some s) :
    print_bytes bs tv total =
      if (bs.drop s).isEmpty then [] else utf8Encode (utf8Lossy (bs.drop s)) := by
  unfold print_bytes
  rw [hs]

theorem print_bytes_valid_verbatim (bs : List Nat) (tv : TakeValue) (total : Int)
    (s : Nat) (hs : get_start_index tv total = some s)
    (hv : utf8Valid (bs.drop s) = true) :
    print_bytes bs tv total = bs.drop s := by
  rw [print_bytes_some bs tv total s hs]
  by_cases he : (bs.drop s).isEmpty
  · rw [if_pos he]
    exact (List.isEmpty_iff.mp he).symm
  · rw [if_neg he]
    exact utf8_roundtrip (bs.drop s) hv


theorem runAux_nil (fs : String → Option (List Nat)) (cfg : Config) (i : Nat) :
    runAux fs cfg i [] = ([], none) := rfl

theorem runAux_cons_none (fs : String → Option (List Nat)) (cfg : Config)
    (i : Nat) (f : String) (rest : List String) (h : fs f = none) :
    runAux fs cfg i (f :: rest) =
      ((Event.stderr f) :: (runAux fs cfg (i + 1) rest).1,
        (runAux fs cfg (i + 1) rest).2) := by
  conv_lhs => rw [runAux, h]

theorem runAux_abort (fs : String → Option (List Nat)) (cfg : Config) :
    ∀ (l : List String) (i : Nat) (e : IoErr),
      (runAux fs cfg i l).2 = some e → ∃ g, g ∈ l ∧ fs g ≠ none := by
  intro l
  induction l with
  | nil =>
    intro i e h
    simp [runAux_nil] at h
  | cons f rest ih =>
    intro i e h
    cases hf : fs f with
    | none =>
      rw [runAux_cons_none fs cfg i f rest hf] at h
      obtain ⟨g, hg, hgn⟩ := ih (i + 1) e h
      exact ⟨g, List.mem_cons_of_mem _ hg, hgn⟩
    | some bs =>
      refine ⟨f, List.mem_cons_self _ _, ?_⟩
      rw [hf]
      simp


theorem runAux_cons_some_err (fs : String → Option (List Nat)) (cfg : Config)
    (i : Nat) (f : String) (rest : List String) (bs : List Nat) (e : IoErr)
    (h : fs f = some bs) (hb : cfg.bytes = none)
    (he : print_lines bs cfg.lines (count_lines_bytes bs).1 = Except.error e) :
    runAux fs cfg i (f :: rest) =
      ((if !cfg.quiet && cfg.files.length > 1 then [Event.header f (i == 0)] else []),
        some e) := by
  conv_lhs => rw [runAux, h]
  dsimp only
  rw [hb, he]


/-- Literal text of 2 to the 63, the positive counterpart of the minimum i64. -/
def minLit : List Char := ("9223372036854775808").toList

/-- Literal text of the maximum i64. -/
def maxLit : List Char := ("9223372036854775807").toList

/-- Literal text of the minimum i64, explicit sign included. -/
def negMinLit : List Char := ("-9223372036854775808").toList

/-- File system for the multi-resource scenario: resource a holds one
undecodable byte, resource b one decodable line. -/
def fsC7 : String → Option (List Nat) := fun f =>
  if f = ("a") then some [255] else if f = ("b") then some [120, 10] else none

/-- Line-mode configuration listing resources a and b. -/
def cfgC7 : Config := ⟨[("a"), ("b")], TakeValue.TakeNum (-10), none, false⟩

/-- File system in which no resource can be opened. -/
def fsNone : String → Option (List Nat) := fun _ => none

/-- Line-mode configuration listing the single resource a. -/
def cfgOne : Config := ⟨[("a")], TakeValue.TakeNum (-10), none, false⟩



/-- C1 counterexample: at offset Signed of the minimum i64 and total 1 the
rule table of the claim demands Some 0, since the magnitude is at least the
total; the resolver instead wraps and returns a huge index. -/
theorem claim_C1_counterexample :
    get_start_index (TakeValue.TakeNum (-(2 ^ 63))) 1 ≠ some 0 ∧
      get_start_index (TakeValue.TakeNum (-(2 ^ 63))) 1 = some 9223372036854775809 :=
  ⟨by decide, by decide⟩

/-- C1 (amended): for every offset whose count is above the minimum i64, so
that its magnitude is representable, and every in-range total, the resolver
implements exactly the rule table of the spec. -/
theorem claim_C1_rule_table (tv : TakeValue) (total : Int) (hok : okTake tv)
    (h1 : -(2 ^ 63) ≤ total) (h2 : total < 2 ^ 63) :
    get_start_index tv total = (resolveWindowSpec tv total).map Int.toNat :=
  get_start_index_spec tv total hok h1 h2

/-- C1 witness: the amended rule table theorem applied at offset Signed(-5)
and total 10. -/
theorem claim_C1_witness :
    get_start_index (TakeValue.TakeNum (-5)) 10 =
      (resolveWindowSpec (TakeValue.TakeNum (-5)) 10).map Int.toNat :=
  claim_C1_rule_table (TakeValue.TakeNum (-5)) 10 (by decide) (by decide) (by decide)

/-- C2: at the failing input, offset Signed of the minimum i64 with total 1,
the resolver does not return the overflow-safe answer Some 0 the spec demands:
the magnitude computation overflows (a debug build panics there) and under
release wrapping semantics the wrapped subtraction and cast yield the
out-of-range index 2 to the 63 plus 1. -/
theorem claim_C2_min_magnitude_wraps :
    get_start_index (TakeValue.TakeNum (-(2 ^ 63))) 1 = some (2 ^ 63 + 1) ∧
      get_start_index (TakeValue.TakeNum (-(2 ^ 63))) 1 ≠ some 0 :=
  ⟨by decide, by decide⟩

/-- C3: the offset parser matches the reference behavior of the spec on the
enumerated round-trip examples, and every input rejected by i64 parsing (not
an optionally signed ASCII digit string with representable value) fails with
an error carrying the original input text. -/
theorem claim_C3_parser_reference :
    parse_count ['3'] = Except.ok (TakeValue.TakeNum (-3)) ∧
    parse_count ['+', '3'] = Except.ok (TakeValue.TakeNum 3) ∧
    parse_count ['-', '3'] = Except.ok (TakeValue.TakeNum (-3)) ∧
    parse_count ['0'] = Except.ok (TakeValue.TakeNum 0) ∧
    parse_count ['+', '0'] = Except.ok TakeValue.PlusZero ∧
    parse_count ['3', '.', '1', '4'] = Except.error ['3', '.', '1', '4'] ∧
    parse_count ['f', 'o', 'o'] = Except.error ['f', 'o', 'o'] ∧
    parse_count [] = Except.error [] ∧
    ∀ s : List Char, parseI64 s = none → parse_count s = Except.error s := by
  refine ⟨by decide, by decide, by decide, by decide, by decide, by decide, by decide,
    by decide, ?_⟩
  intro s hnone
  unfold parse_count
  by_cases h0 : plusZeroMatch s = true
  · exfalso
    have hs : s = ['+', '0'] := by simpa [plusZeroMatch] using h0
    rw [hs] at hnone
    exact absurd hnone (by decide)
  · rw [if_neg h0]
    by_cases h1 : signNumMatch s = true
    · rw [if_pos h1, hnone]
    · rw [if_neg h1, hnone]

/-- C3 witness: the failure clause applied at the concrete invalid input foo. -/
theorem claim_C3_witness :
    parse_count ['f', 'o', 'o'] = Except.error ['f', 'o', 'o'] :=
  claim_C3_parser_reference.2.2.2.2.2.2.2.2 ['f', 'o', 'o'] (by decide)


/-- C4 counterexample: the no-sign literal equal to 2 to the 63 is not treated
as valid: the fallback branch parses the text as an i64 before negating, which
overflows the positive range, so the parser fails with the original text and
never returns the minimum value. -/
theorem claim_C4_counterexample :
    parse_count minLit = Except.error minLit ∧
      parse_count minLit ≠ Except.ok (TakeValue.TakeNum (-(2 ^ 63))) :=
  ⟨by decide, by decide⟩

/-- C4 (amended): the no-sign literal 9223372036854775808 is rejected with an
error carrying the text; the largest accepted no-sign literal is
9223372036854775807, mapping to its negation, and the minimum value is only
reachable through the explicitly signed literal. -/
theorem claim_C4_min_literal_behavior :
    parse_count minLit = Except.error minLit ∧
      parse_count maxLit = Except.ok (TakeValue.TakeNum (-(2 ^ 63 - 1))) ∧
      parse_count negMinLit = Except.ok (TakeValue.TakeNum (-(2 ^ 63))) :=
  ⟨by decide, by decide, by decide⟩

/-- C5 counterexample: at offset Signed of the minimum i64 and total 1 the
resolver answers with an index far beyond the total, violating the claimed
bound. -/
theorem claim_C5_counterexample :
    get_start_index (TakeValue.TakeNum (-(2 ^ 63))) 1 = some 9223372036854775809 ∧
      ¬((9223372036854775809 : Int) < 1) :=
  ⟨by decide, by decide⟩

/-- C5 (amended): for every offset whose count is above the minimum i64 and
every positive in-range total, a resolved start index is strictly below the
total, so the window from it through the last unit is a nonempty suffix. -/
theorem claim_C5_start_index_invariant (tv : TakeValue) (total : Int) (s : Nat)
    (hok : okTake tv) (h0 : 0 < total) (h2 : total < 2 ^ 63)
    (hs : get_start_index tv total = some s) : (s : Int) < total := by
  rw [get_start_index_spec tv total hok (by omega) h2] at hs
  have hne : ¬total = 0 := by omega
  cases tv with
  | PlusZero =>
    simp only [resolveWindowSpec, if_neg hne] at hs
    simp at hs
    omega
  | TakeNum v =>
    obtain ⟨hv1, hv2⟩ := hok
    simp only [resolveWindowSpec, if_neg hne] at hs
    split at hs
    · split at hs
      · simp at hs
        omega
      · simp at hs
        omega
    · split at hs
      · split at hs
        · simp at hs
          omega
        · simp at hs
      · simp at hs

/-- C5 witness: the amended invariant applied at offset Signed(-5), total 10,
where the resolver yields index 5. -/
theorem claim_C5_witness : ((5 : Nat) : Int) < 10 :=
  claim_C5_start_index_invariant (TakeValue.TakeNum (-5)) 10 5 (by decide)
    (by decide) (by decide) (by decide)


/-- C6 counterexample: on the single undecodable byte 255 with total 1 the
resolved start is 0, and the byte strategy does not pass that byte through
unmodified: the lossy conversion replaces it with the three-byte encoding of
the replacement character. -/
theorem claim_C6_counterexample :
    print_bytes [255] (TakeValue.TakeNum (-1)) 1 ≠ [255] ∧
      print_bytes [255] (TakeValue.TakeNum (-1)) 1 = [239, 191, 189] := by
  have h : print_bytes [255] (TakeValue.TakeNum (-1)) 1 = [239, 191, 189] := by
    rw [print_bytes_some [255] (TakeValue.TakeNum (-1)) 1 0 (by decide)]
    rw [if_neg (by decide)]
    rw [utf8Lossy.eq_def]
    norm_num [isCont, cont3ok, cont4ok]
    rw [utf8Lossy.eq_def]
    norm_num [utf8Encode, utf8EncodeChar]
  refine ⟨?_, h⟩
  rw [h]
  decide

/-- C6 (amended): the byte strategy has no failure mode, and it emits the
trailing bytes verbatim whenever they are valid UTF-8; an undecodable tail is
instead passed through the lossy conversion, which substitutes replacement
characters for ill-formed sequences. -/
theorem claim_C6_bytes_verbatim_on_valid (bs : List Nat) (tv : TakeValue)
    (total : Int) (s : Nat) (hs : get_start_index tv total = some s)
    (hv : utf8Valid (bs.drop s) = true) :
    print_bytes bs tv total = bs.drop s :=
  print_bytes_valid_verbatim bs tv total s hs hv

/-- C6 witness: the amended theorem applied to a two-byte ASCII resource with
offset Signed(-1), total 2, resolved start 1. -/
theorem claim_C6_witness :
    print_bytes [104, 105] (TakeValue.TakeNum (-1)) 2 = [104, 105].drop 1 :=
  claim_C6_bytes_verbatim_on_valid [104, 105] (TakeValue.TakeNum (-1)) 2 1
    (by decide) (by decide)

/-- C7 counterexample: with two resources, the first holding one undecodable
byte and the second a decodable line, the line-mode run stops at the first
resource with a decoding error: no event for the second resource is produced,
so its processing did not continue. -/
theorem claim_C7_counterexample :
    run fsC7 cfgC7 = ([Event.header ("a") true], some IoErr.fromUtf8) ∧
      Event.output [120, 10] ∉ (run fsC7 cfgC7).1 ∧
      Event.stderr ("b") ∉ (run fsC7 cfgC7).1 :=
  ⟨by decide, by decide, by decide⟩

/-- C7 (amended): a resource that cannot be opened is reported on standard
error and every remaining sibling is still processed; but once a resource has
been opened, a strategy failure such as a line decoding error ends the loop
through the error propagation operator, so an abort can only originate in a
resource that was opened, and the siblings after it are skipped. -/
theorem claim_C7_per_resource_recovery :
    (∀ (fs : String → Option (List Nat)) (cfg : Config) (i : Nat) (f : String)
        (rest : List String), fs f = none →
        runAux fs cfg i (f :: rest) =
          ((Event.stderr f) :: (runAux fs cfg (i + 1) rest).1,
            (runAux fs cfg (i + 1) rest).2)) ∧
    (∀ (fs : String → Option (List Nat)) (cfg : Config) (i : Nat) (f : String)
        (rest : List String) (bs : List Nat) (e : IoErr),
        fs f = some bs → cfg.bytes = none →
        print_lines bs cfg.lines (count_lines_bytes bs).1 = Except.error e →
        runAux fs cfg i (f :: rest) =
          ((if !cfg.quiet && cfg.files.length > 1 then [Event.header f (i == 0)]
            else []), some e)) ∧
    (∀ (fs : String → Option (List Nat)) (cfg : Config) (e : IoErr),
        (run fs cfg).2 = some e → ∃ g, g ∈ cfg.files ∧ fs g ≠ none) := by
  refine ⟨runAux_cons_none, runAux_cons_some_err, ?_⟩
  intro fs cfg e h
  exact runAux_abort fs cfg cfg.files 0 e h

/-- C7 witness: the open-failure clause applied to a file system in which the
single listed resource cannot be opened: it is reported and the loop ends
normally. -/
theorem claim_C7_witness :
    runAux fsNone cfgOne 0 [("a")] = ([Event.stderr ("a")], none) := by
  have h := claim_C7_per_resource_recovery.1 fsNone cfgOne 0 ("a") [] rfl
  rw [h]
  rfl

/-- C8: on a decodable resource, with a resolved start index s, the line
strategy discards exactly s whole lines, terminators included, and emits the
remaining bytes verbatim: the output is the flattening of the lines after the
first s. -/
theorem claim_C8_line_strategy (bs : List Nat) (tv : TakeValue) (total : Int)
    (s : Nat) (hv : utf8Valid bs = true) (hs : get_start_index tv total = some s) :
    print_lines bs tv total = Except.ok (((splitLines bs).drop s).flatten) :=
  print_lines_valid_content bs tv total s hv hs

/-- C8 witness: a three-line resource with offset Signed(-1) resolves to start
index 2 and emits exactly the last line. -/
theorem claim_C8_witness :
    print_lines [97, 10, 98, 10, 99, 10] (TakeValue.TakeNum (-1)) 3 =
        Except.ok (((splitLines [97, 10, 98, 10, 99, 10]).drop 2).flatten) ∧
      ((splitLines [97, 10, 98, 10, 99, 10]).drop 2).flatten = [99, 10] :=
  ⟨claim_C8_line_strategy [97, 10, 98, 10, 99, 10] (TakeValue.TakeNum (-1)) 3 2
      (by decide) (by decide), by decide⟩

/-- C9: numerically zero spellings other than the exact two characters of the
sentinel parse to Signed 0, and no input other than the exact sentinel text
parses to the FromStartZero sentinel. -/
theorem claim_C9_sentinel_exact :
    parse_count ['+', '0', '0'] = Except.ok (TakeValue.TakeNum 0) ∧
    parse_count ['-', '0'] = Except.ok (TakeValue.TakeNum 0) ∧
    parse_count ['0', '0'] = Except.ok (TakeValue.TakeNum 0) ∧
    parse_count ['+', '0'] = Except.ok TakeValue.PlusZero ∧
    ∀ s : List Char, s ≠ ['+', '0'] → parse_count s ≠ Except.ok TakeValue.PlusZero := by
  refine ⟨by decide, by decide, by decide, by decide, ?_⟩
  intro s hne
  unfold parse_count
  by_cases h0 : plusZeroMatch s = true
  · exact absurd (by simpa [plusZeroMatch] using h0) hne
  · rw [if_neg h0]
    by_cases h1 : signNumMatch s = true
    · rw [if_pos h1]
      cases hp : parseI64 s <;> simp
    · rw [if_neg h1]
      cases hp : parseI64 s <;> simp

/-- C9 witness: the uniqueness clause applied at the spelled-out zero with an
explicit negative sign. -/
theorem claim_C9_witness :
    parse_count ['-', '0'] ≠ Except.ok TakeValue.PlusZero :=
  claim_C9_sentinel_exact.2.2.2.2 ['-', '0'] (by decide)

/-- C10: whenever the bytes remaining after the skipped lines are not valid
UTF-8, the line strategy fails with a decoding error, even when the start
index is 0 and no line was skipped. -/
theorem claim_C10_decode_error (bs : List Nat) (tv : TakeValue) (total : Int)
    (s : Nat) (hs : get_start_index tv total = some s)
    (hv : utf8Valid (dropLines s bs) = false) :
    ∃ e, print_lines bs tv total = Except.error e :=
  print_lines_error_content bs tv total s hs hv

/-- C10 witness: the single undecodable byte 255 with resolved start index 0
makes the line strategy fail without skipping any line. -/
theorem claim_C10_witness :
    ∃ e, print_lines [255] (TakeValue.TakeNum (-1)) 1 = Except.error e :=
  claim_C10_decode_error [255] (TakeValue.TakeNum (-1)) 1 0 (by decide) (by decide)

end Tail
